import Mathlib

/-!
Verification development for the Lumina repository.

This file shallowly embeds the parts of the Lumina sources that the
turn-taking and playback claims are about:

* `src/frontend/public/audio-processor.js` — the audio-worklet capture
  processor (`LuminaAudioCaptureProcessor.process`);
* `src/frontend/src/services/backendAudioPlayer.ts` — the backend audio
  playback service (`playAudio`, `playBuffer`, `onAudioEnded`,
  `stopPlayback`, `stopPlaybackInternal`);
* `src/frontend/src/components/AudioPlayback.vue` — the mapping from the
  turn-phase notifications to the exported SiriWave display mode;
* `src/frontend/src/services/audioCapture.ts` — `releaseAudioControl`;
* the sentence queue of the backend orchestrator and the turn state
  machine, which are documented in `src/docs` but whose executable code
  is not part of the source tree; these are modelled from the spec.

Samples, buffers and node identifiers are represented by their payloads
(`Nat` / generic `α`); mutation is made explicit by state passing, and
`window.dispatchEvent` calls become an explicit event trace.
-/

namespace Lumina

/-! ### Audio worklet capture processor (`audio-processor.js`)

`LuminaAudioCaptureProcessor` keeps `_buffer : List α` of pending
samples.  `process` appends the incoming channel data and then, while at
least `_frameSize` samples are buffered, slices off one frame of exactly
`_frameSize` samples and posts it (as a `Float32Array`) to the main
thread. -/

/-- `this._frameSize = 320` — 20 ms @ 16 kHz. -/
def frameSize : Nat := 320

/-- `this._sampleRate = 16000`. -/
def sampleRate : Nat := 16000

/-- The `while (this._buffer.length >= this._frameSize)` loop of
`process`, with explicit fuel.  Each iteration removes `frameSize > 0`
samples, so `buf.length` iterations always suffice; `drainFrames` below
instantiates the fuel accordingly.  Returns the emitted frames in
emission order together with the residual buffer. -/
def drainAux {α : Type} : Nat → List α → List (List α) × List α
  | 0, buf => ([], buf)
  | Nat.succ n, buf =>
    if frameSize ≤ buf.length then
      let r := drainAux n (buf.drop frameSize)
      (buf.take frameSize :: r.1, r.2)
    else
      ([], buf)

/-- Drain the worklet buffer: emit frames while ≥ `frameSize` samples
remain (the `while` loop of `process`). -/
def drainFrames {α : Type} (buf : List α) : List (List α) × List α :=
  drainAux buf.length buf

/-- One call of `process` on one input channel block: the block is pushed
onto `_buffer` and then frames are drained. -/
def process {α : Type} (buf block : List α) : List (List α) × List α :=
  drainFrames (buf ++ block)

/-- A whole capture session: feed a sequence of sample blocks through
`process`, threading `_buffer` and concatenating the emitted frames in
emission order. -/
def processStream {α : Type} : List α → List (List α) → List (List α) × List α
  | buf, [] => ([], buf)
  | buf, blk :: rest =>
    let p := process buf blk
    let q := processStream p.2 rest
    (p.1 ++ q.1, q.2)

/-- Byte length of a posted frame: the worklet posts
`new Float32Array(frameData)`, 4 bytes per sample. -/
def frameByteLength {α : Type} (frame : List α) : Nat :=
  4 * frame.length

/-! ### Backend audio playback service (`backendAudioPlayer.ts`)

`BackendAudioPlayerService` holds `audioQueue : ArrayBuffer[]`,
`isPlaying : boolean` and `sourceNode : AudioBufferSourceNode | null`.
Buffers are represented by `Nat` payloads; source nodes by `Nat`
identifiers allocated from a counter.  `live` records the identifiers of
the source nodes currently playing inside the `AudioContext` (a node
enters it at `start(0)` and leaves it when it is `stop()`ped or finishes
naturally), so statements about "at most one node playing" are not true
by type.  `window.dispatchEvent` calls become a `PlayerEv` trace; the
`audio-playback-started` event is tagged with the buffer being started. -/

/-- Events the playback service dispatches on the window. -/
inductive PlayerEv where
  | playbackStarted (buf : Nat)
  | playbackEnded
deriving DecidableEq

/-- The mutable fields of `BackendAudioPlayerService`, plus the `live`
set of playing nodes and the id counter. -/
structure PlayerState where
  audioQueue : List Nat
  isPlaying : Bool
  current : Option Nat
  live : List Nat
  nextId : Nat
deriving DecidableEq

/-- Initial state of the service (empty queue, nothing playing). -/
def initPlayer : PlayerState := ⟨[], false, none, [], 0⟩

/-- `stopPlaybackInternal(fireEvent)`: if a source node exists, detach
its `onended` handler, `stop()` it and null the field; then, if
`isPlaying`, reset the flag and (only when `fireEvent`) dispatch
`audio-playback-ended`. -/
def stopPlaybackInternal (fireEvent : Bool) (s : PlayerState) :
    PlayerState × List PlayerEv :=
  let s1 :=
    match s.current with
    | some id => { s with live := s.live.erase id, current := none }
    | none => s
  if s1.isPlaying then
    ({ s1 with isPlaying := false },
     if fireEvent then [PlayerEv.playbackEnded] else [])
  else
    (s1, [])

/-- `playBuffer(buffer)`: decode the data (`ok` says whether
`decodeAudioData` succeeds for this buffer); on success stop any
previous playback without firing `ended`, create and start a fresh
source node (dispatching `audio-playback-started` just before
`start(0)`) and set `isPlaying`; on failure reset `isPlaying` and
dispatch `audio-playback-ended` (the error is only logged). -/
def playBuffer (ok : Nat → Bool) (b : Nat) (s : PlayerState) :
    PlayerState × List PlayerEv :=
  if ok b then
    let s1 := (stopPlaybackInternal false s).1
    ({ s1 with
        current := some s1.nextId,
        live := s1.live ++ [s1.nextId],
        nextId := s1.nextId + 1,
        isPlaying := true },
     [PlayerEv.playbackStarted b])
  else
    ({ s with isPlaying := false }, [PlayerEv.playbackEnded])

/-- `onAudioEnded()`: reset `isPlaying`, null the source node, dispatch
`audio-playback-ended`, then `shift()` the queue and play the next
buffer if one is waiting. -/
def onAudioEnded (ok : Nat → Bool) (s : PlayerState) :
    PlayerState × List PlayerEv :=
  let s1 := { s with isPlaying := false, current := none }
  match s1.audioQueue with
  | [] => (s1, [PlayerEv.playbackEnded])
  | b :: rest =>
    let p := playBuffer ok b { s1 with audioQueue := rest }
    (p.1, PlayerEv.playbackEnded :: p.2)

/-- `playAudio(audioData)`: while something is playing, push the buffer
on the queue tail; otherwise play it at once. -/
def playAudio (ok : Nat → Bool) (b : Nat) (s : PlayerState) :
    PlayerState × List PlayerEv :=
  if s.isPlaying then
    ({ s with audioQueue := s.audioQueue ++ [b] }, [])
  else
    playBuffer ok b s

/-- `stopPlayback()`: clear the queue, then stop with the ended event
enabled. -/
def stopPlayback (s : PlayerState) : PlayerState × List PlayerEv :=
  stopPlaybackInternal true { s with audioQueue := [] }

/-- The stimuli the service reacts to: `playAudio` calls from the
transport, the natural `onended` callback of the playing node, and
`stopPlayback` from the barge-in / stop path. -/
inductive PlayerInput where
  | arrive (b : Nat)
  | naturalEnd
  | stop
deriving DecidableEq

/-- One stimulus.  A natural end can only fire while a source node with
a registered `onended` handler exists (`stopPlaybackInternal` detaches
the handler before stopping a node); the node leaves the audio context
on finishing, then `onAudioEnded` runs. -/
def playerStep (ok : Nat → Bool) (s : PlayerState) :
    PlayerInput → PlayerState × List PlayerEv
  | PlayerInput.arrive b => playAudio ok b s
  | PlayerInput.naturalEnd =>
    match s.current with
    | some id => onAudioEnded ok { s with live := s.live.erase id }
    | none => (s, [])
  | PlayerInput.stop => stopPlayback s

/-- Run a stimulus sequence, concatenating the event traces. -/
def playerRun (ok : Nat → Bool) (s : PlayerState) :
    List PlayerInput → PlayerState × List PlayerEv
  | [] => (s, [])
  | i :: rest =>
    let p := playerStep ok s i
    let q := playerRun ok p.1 rest
    (q.1, p.2 ++ q.2)

/-- The buffers whose playback was started, in start order. -/
def startedBufs (evs : List PlayerEv) : List Nat :=
  evs.filterMap fun e =>
    match e with
    | PlayerEv.playbackStarted b => some b
    | PlayerEv.playbackEnded => none

/-- The buffers handed to `playAudio`, in arrival order. -/
def arrivals (inputs : List PlayerInput) : List Nat :=
  inputs.filterMap fun i =>
    match i with
    | PlayerInput.arrive b => some b
    | _ => none

/-- The structural invariant of the service: the nodes playing in the
audio context are exactly the node the `sourceNode` field points at. -/
def liveOk (s : PlayerState) : Prop :=
  s.live = s.current.toList

/-! ### Exported display mode (`AudioPlayback.vue`)

The component watches `currentStateMachineState` (a string delivered by
the phase-change notifications) and derives the externally displayed
SiriWave mode; the watcher leaves the mode untouched for any state other
than the four exported phases. -/

/-- The three values of `siriWaveMode`. -/
inductive SiriMode where
  | idle
  | listening
  | speaking
deriving DecidableEq

/-- The body of `watch(currentStateMachineState, ...)`: Initial ↦ idle,
Speaking/Waiting ↦ listening, Listening ↦ speaking, anything else
(in particular `TransitionBuffer`) leaves the mode unchanged. -/
def updateSiriWaveMode (state : String) (m : SiriMode) : SiriMode :=
  if state = "Initial" then SiriMode.idle
  else if state = "Speaking" ∨ state = "Waiting" then SiriMode.listening
  else if state = "Listening" then SiriMode.speaking
  else m

/-- The four phases the spec allows external observers to see. -/
def isExportedPhase (state : String) : Bool :=
  state == "Initial" || state == "Speaking" || state == "Waiting"
    || state == "Listening"

/-! ### Audio control ownership (`audioCapture.ts`) -/

/-- The ownership fields of `AudioCaptureService`. -/
structure CaptureState where
  currentComponent : Option String
  pendingComponentRequest : Option String
deriving DecidableEq

/-- `releaseAudioControl(componentName)`: only the current holder may
release; on success the holder is cleared and, if a component is waiting,
an `audio-resource-available` notification is dispatched for it and the
pending request is cleared; otherwise the call returns `false` and
changes nothing.  Result: (returned boolean, new state, notified
components). -/
def releaseAudioControl (componentName : String) (s : CaptureState) :
    Bool × CaptureState × List String :=
  if s.currentComponent = some componentName then
    match s.pendingComponentRequest with
    | some p => (true, ⟨none, none⟩, [p])
    | none => (true, ⟨none, none⟩, [])
  else
    (false, s, [])

/-! ### Sentence queue of the backend orchestrator

Modelled from the spec: the Python implementation of the sentence
aggregator (`_monitor_stt_buffer` polling `get_complete_sentences` and
then `clear_sentence_buffer`) is not part of the source tree; only
`src/docs/Lumina_Code_Walkthrough.md` and spec §4.5 describe it.
Finalized sentences are appended at the tail; `consume_all` reads the
complete-sentence buffer and clears it in one step (poll + clear with no
intervening push, per the spec's atomicity requirement). -/

/-- The recognizer's complete-sentence buffer. -/
structure SentenceQueue where
  sentences : List String
deriving DecidableEq

/-- Modelled from the spec: `SentenceFinalized` pushes to the tail. -/
def pushSentence (q : SentenceQueue) (s : String) : SentenceQueue :=
  ⟨q.sentences ++ [s]⟩

/-- Modelled from the spec: `consume_all` atomically drains the list and
returns it. -/
def consume_all (q : SentenceQueue) : List String × SentenceQueue :=
  (q.sentences, ⟨[]⟩)

/-- The interleaved operations on the queue. -/
inductive QOp where
  | push (s : String)
  | consume
deriving DecidableEq

/-- Run an interleaving of pushes and consumes, collecting each
consumption result. -/
def queueRun : SentenceQueue → List QOp → SentenceQueue × List (List String)
  | q, [] => (q, [])
  | q, QOp.push s :: rest => queueRun (pushSentence q s) rest
  | q, QOp.consume :: rest =>
    let d := consume_all q
    let r := queueRun d.2 rest
    (r.1, d.1 :: r.2)

/-- The sentences pushed, in finalization order. -/
def pushedOf (ops : List QOp) : List String :=
  ops.filterMap fun o =>
    match o with
    | QOp.push s => some s
    | QOp.consume => none

/-! ### Turn state machine

Modelled from the spec: the state machine implementation (the Rust side
behind `process_audio_frame`) is not part of the source tree; spec §4.2
and `src/docs/statemachine.plantuml` define the phases and transitions.
The silence counter is carried so that the Speaking → Waiting guard is
represented. -/

/-- The conversational phases. -/
inductive TurnPhase where
  | Initial
  | TransitionBuffer
  | Speaking
  | Waiting
  | Listening
deriving DecidableEq

/-- The events of the diagram (frame classifications, recognizer and
control events, playback lifecycle notifications). -/
inductive TurnEvent where
  | VoiceFrame
  | SilenceFrame
  | BackendReturnText
  | TransitionTimeout
  | AudioPlaybackStart
  | AudioPlaybackEnd
  | BackendEndSession
  | BackendResetToInitial
deriving DecidableEq

/-- Phase plus the contiguous-silence frame counter. -/
structure TMState where
  phase : TurnPhase
  silenceCount : Nat
deriving DecidableEq

/-- `max_silence_frames` (spec default 25 = 500 ms). -/
def maxSilenceFrames : Nat := 25

/-- Modelled from the spec: one transition of the turn state machine,
following `statemachine.plantuml` and spec §4.2 (`PlaybackStarted` is
the diagram's `AudioPlaybackStart`). -/
def turnStep (s : TMState) (e : TurnEvent) : TMState :=
  match s.phase, e with
  | TurnPhase.Initial, TurnEvent.VoiceFrame => ⟨TurnPhase.TransitionBuffer, 0⟩
  | TurnPhase.Initial, TurnEvent.AudioPlaybackStart =>
      ⟨TurnPhase.Listening, s.silenceCount⟩
  | TurnPhase.Initial, _ => s
  | TurnPhase.TransitionBuffer, TurnEvent.BackendReturnText =>
      ⟨TurnPhase.Speaking, 0⟩
  | TurnPhase.TransitionBuffer, TurnEvent.BackendEndSession =>
      ⟨TurnPhase.Initial, 0⟩
  | TurnPhase.TransitionBuffer, TurnEvent.BackendResetToInitial =>
      ⟨TurnPhase.Initial, 0⟩
  | TurnPhase.TransitionBuffer, TurnEvent.TransitionTimeout =>
      ⟨TurnPhase.Initial, 0⟩
  | TurnPhase.TransitionBuffer, TurnEvent.AudioPlaybackStart =>
      ⟨TurnPhase.Listening, s.silenceCount⟩
  | TurnPhase.TransitionBuffer, _ => s
  | TurnPhase.Speaking, TurnEvent.VoiceFrame => ⟨TurnPhase.Speaking, 0⟩
  | TurnPhase.Speaking, TurnEvent.SilenceFrame =>
      if maxSilenceFrames ≤ s.silenceCount + 1 then
        ⟨TurnPhase.Waiting, s.silenceCount + 1⟩
      else
        ⟨TurnPhase.Speaking, s.silenceCount + 1⟩
  | TurnPhase.Speaking, TurnEvent.AudioPlaybackStart =>
      ⟨TurnPhase.Listening, s.silenceCount⟩
  | TurnPhase.Speaking, TurnEvent.BackendEndSession => ⟨TurnPhase.Initial, 0⟩
  | TurnPhase.Speaking, TurnEvent.BackendResetToInitial => ⟨TurnPhase.Initial, 0⟩
  | TurnPhase.Speaking, _ => s
  | TurnPhase.Waiting, TurnEvent.VoiceFrame => ⟨TurnPhase.TransitionBuffer, 0⟩
  | TurnPhase.Waiting, TurnEvent.AudioPlaybackStart =>
      ⟨TurnPhase.Listening, s.silenceCount⟩
  | TurnPhase.Waiting, TurnEvent.BackendEndSession => ⟨TurnPhase.Initial, 0⟩
  | TurnPhase.Waiting, TurnEvent.BackendResetToInitial => ⟨TurnPhase.Initial, 0⟩
  | TurnPhase.Waiting, _ => s
  | TurnPhase.Listening, TurnEvent.VoiceFrame => ⟨TurnPhase.TransitionBuffer, 0⟩
  | TurnPhase.Listening, TurnEvent.AudioPlaybackEnd => ⟨TurnPhase.Initial, 0⟩
  | TurnPhase.Listening, TurnEvent.BackendEndSession => ⟨TurnPhase.Initial, 0⟩
  | TurnPhase.Listening, TurnEvent.BackendResetToInitial => ⟨TurnPhase.Initial, 0⟩
  | TurnPhase.Listening, _ => s

/-! ### Properties -/

/-- Key lemma on the drain loop: with enough fuel it splits the buffer
into full frames plus a short residue, losing, duplicating and
reordering nothing. -/
theorem drainAux_spec {α : Type} :
    ∀ (n : Nat) (buf : List α), buf.length ≤ n →
      (drainAux n buf).1.flatten ++ (drainAux n buf).2 = buf
      ∧ (drainAux n buf).2.length < frameSize
      ∧ ∀ f ∈ (drainAux n buf).1, f.length = frameSize := by
  intro n
  induction n with
  | zero =>
    intro buf hlen
    have hnil : buf = [] := List.eq_nil_of_length_eq_zero (Nat.le_zero.mp hlen)
    subst hnil
    refine ⟨rfl, ?_, ?_⟩
    · simp [drainAux, frameSize]
    · intro f hf
      simp [drainAux] at hf
  | succ n ih =>
    intro buf hlen
    by_cases h : frameSize ≤ buf.length
    · have h320 : frameSize = 320 := rfl
      have hdrop : (buf.drop frameSize).length ≤ n := by
        rw [List.length_drop]
        omega
      obtain ⟨ih1, ih2, ih3⟩ := ih (buf.drop frameSize) hdrop
      refine ⟨?_, ?_, ?_⟩
      · simp only [drainAux, if_pos h, List.flatten_cons]
        rw [List.append_assoc, ih1, List.take_append_drop]
      · simpa only [drainAux, if_pos h] using ih2
      · intro f hf
        simp only [drainAux, if_pos h, List.mem_cons] at hf
        rcases hf with hf | hf
        · subst hf
          rw [List.length_take]
          have h320 : frameSize = 320 := rfl
          omega
        · exact ih3 f hf
    · refine ⟨?_, ?_, ?_⟩
      · simp [drainAux, if_neg h]
      · simp only [drainAux, if_neg h]
        omega
      · intro f hf
        simp [drainAux, if_neg h] at hf

/-- `drainFrames` splits the buffer into frames plus residue. -/
theorem drainFrames_spec {α : Type} (buf : List α) :
    (drainFrames buf).1.flatten ++ (drainFrames buf).2 = buf
    ∧ (drainFrames buf).2.length < frameSize
    ∧ ∀ f ∈ (drainFrames buf).1, f.length = frameSize :=
  drainAux_spec buf.length buf (Nat.le_refl _)

/-- Threading `process` over a block sequence loses and duplicates no
sample: the emitted frames followed by the final residue are exactly the
initial buffer followed by all input samples, in order. -/
theorem processStream_flatten {α : Type} :
    ∀ (blocks : List (List α)) (buf : List α),
      (processStream buf blocks).1.flatten ++ (processStream buf blocks).2
        = buf ++ blocks.flatten := by
  intro blocks
  induction blocks with
  | nil => intro buf; simp [processStream]
  | cons blk rest ih =>
    intro buf
    have hd := drainFrames_spec (buf ++ blk)
    simp only [processStream, process, List.flatten_cons, List.flatten_append]
    rw [List.append_assoc, ih, ← List.append_assoc, hd.1, List.append_assoc]

/-- The residual buffer stays strictly below one frame. -/
theorem processStream_residual {α : Type} :
    ∀ (blocks : List (List α)) (buf : List α), buf.length < frameSize →
      (processStream buf blocks).2.length < frameSize := by
  intro blocks
  induction blocks with
  | nil => intro buf h; simpa [processStream] using h
  | cons blk rest ih =>
    intro buf _
    exact ih _ (drainFrames_spec (buf ++ blk)).2.1

/-- Every frame emitted over a whole stream has exactly `frameSize`
samples. -/
theorem processStream_frames {α : Type} :
    ∀ (blocks : List (List α)) (buf : List α),
      ∀ f ∈ (processStream buf blocks).1, f.length = frameSize := by
  intro blocks
  induction blocks with
  | nil => intro buf f hf; simp [processStream] at hf
  | cons blk rest ih =>
    intro buf f hf
    simp only [processStream, process, List.mem_append] at hf
    rcases hf with hf | hf
    · exact (drainFrames_spec (buf ++ blk)).2.2 f hf
    · exact ih _ f hf

/-- A buffer shorter than one frame emits nothing. -/
theorem drainFrames_short {α : Type} (buf : List α)
    (h : buf.length < frameSize) : drainFrames buf = ([], buf) := by
  unfold drainFrames
  cases hn : buf.length with
  | zero => simp [drainAux]
  | succ n =>
    simp only [drainAux]
    rw [if_neg]
    omega

theorem liveOk_init : liveOk initPlayer := rfl

theorem stopPlaybackInternal_state (f : Bool) (s : PlayerState)
    (h : liveOk s) :
    (stopPlaybackInternal f s).1.current = none
    ∧ (stopPlaybackInternal f s).1.live = []
    ∧ (stopPlaybackInternal f s).1.audioQueue = s.audioQueue
    ∧ (stopPlaybackInternal f s).1.isPlaying = false
    ∧ (stopPlaybackInternal f s).1.nextId = s.nextId := by
  unfold liveOk at h
  cases hc : s.current with
  | none =>
    have hlive : s.live = [] := by rw [h, hc]; rfl
    by_cases hp : s.isPlaying
    · simp [stopPlaybackInternal, hc, hp, hlive]
    · simp [stopPlaybackInternal, hc, hp, hlive]
  | some id =>
    have hlive : s.live = [id] := by rw [h, hc]; rfl
    by_cases hp : s.isPlaying
    · simp [stopPlaybackInternal, hc, hp, hlive, List.erase_cons]
    · simp [stopPlaybackInternal, hc, hp, hlive, List.erase_cons]

theorem playBuffer_liveOk (ok : Nat → Bool) (b : Nat) (s : PlayerState)
    (h : liveOk s) : liveOk (playBuffer ok b s).1 := by
  by_cases hb : ok b
  · obtain ⟨h1, h2, _, _, _⟩ := stopPlaybackInternal_state false s h
    simp [playBuffer, hb, liveOk, h2]
  · simpa [playBuffer, hb, liveOk] using h

theorem playerStep_liveOk (ok : Nat → Bool) (s : PlayerState)
    (i : PlayerInput) (h : liveOk s) : liveOk (playerStep ok s i).1 := by
  cases i with
  | arrive b =>
    by_cases hp : s.isPlaying
    · simpa [playerStep, playAudio, hp, liveOk] using h
    · simpa [playerStep, playAudio, hp] using playBuffer_liveOk ok b s h
  | naturalEnd =>
    cases hc : s.current with
    | none => simpa [playerStep, hc] using h
    | some id =>
      have hlive : s.live = [id] := by
        unfold liveOk at h; rw [h, hc]; rfl
      have herase : s.live.erase id = [] := by
        rw [hlive, List.erase_cons]; simp
      cases hq : s.audioQueue with
      | nil =>
        simp [playerStep, hc, onAudioEnded, hq, liveOk, herase]
      | cons b rest =>
        have hlive2 :
            liveOk (PlayerState.mk rest false none (s.live.erase id) s.nextId) := by
          simp [liveOk, herase]
        have hpb := playBuffer_liveOk ok b _ hlive2
        simpa [playerStep, hc, onAudioEnded, hq] using hpb
  | stop =>
    have h2 : liveOk { s with audioQueue := ([] : List Nat) } := h
    obtain ⟨h1, hl, _, _, _⟩ := stopPlaybackInternal_state true _ h2
    simp [playerStep, stopPlayback, liveOk, h1, hl]

theorem playerRun_liveOk (ok : Nat → Bool) :
    ∀ (inputs : List PlayerInput) (s : PlayerState), liveOk s →
      liveOk (playerRun ok s inputs).1 := by
  intro inputs
  induction inputs with
  | nil => intro s h; exact h
  | cons i rest ih =>
    intro s h
    exact ih _ (playerStep_liveOk ok s i h)

theorem playerRun_append (ok : Nat → Bool) :
    ∀ (xs ys : List PlayerInput) (s : PlayerState),
      playerRun ok s (xs ++ ys)
        = ((playerRun ok (playerRun ok s xs).1 ys).1,
           (playerRun ok s xs).2 ++ (playerRun ok (playerRun ok s xs).1 ys).2) := by
  intro xs
  induction xs with
  | nil => intro ys s; simp [playerRun]
  | cons i rest ih =>
    intro ys s
    simp [playerRun, ih ys (playerStep ok s i).1]

theorem stopPlaybackInternal_queue (f : Bool) (s : PlayerState) :
    (stopPlaybackInternal f s).1.audioQueue = s.audioQueue := by
  cases hc : s.current <;> by_cases hp : s.isPlaying <;>
    simp [stopPlaybackInternal, hc, hp]

theorem stopPlaybackInternal_started (f : Bool) (s : PlayerState) :
    startedBufs (stopPlaybackInternal f s).2 = [] := by
  cases hc : s.current <;> by_cases hp : s.isPlaying <;> cases f <;>
    simp [stopPlaybackInternal, hc, hp, startedBufs]

/-- Per-stimulus provenance: a buffer whose playback starts during one
step, or that sits in the queue afterwards, was already queued before
the step or arrived with it. -/
theorem playerStep_provenance (ok : Nat → Bool) (s : PlayerState)
    (i : PlayerInput) (b : Nat) :
    (b ∈ startedBufs (playerStep ok s i).2
      ∨ b ∈ (playerStep ok s i).1.audioQueue) →
    b ∈ s.audioQueue ∨ b ∈ arrivals [i] := by
  intro hmem
  cases i with
  | arrive a =>
    by_cases hp : s.isPlaying
    · simp only [playerStep, playAudio, hp, if_true] at hmem
      rcases hmem with hmem | hmem
      · simp [startedBufs] at hmem
      · simp only [List.mem_append, List.mem_singleton] at hmem
        rcases hmem with hmem | hmem
        · exact Or.inl hmem
        · subst hmem; right; simp [arrivals]
    · by_cases hb : ok a
      · simp only [playerStep, playAudio, hp, if_false, Bool.false_eq_true,
          playBuffer, hb, if_true] at hmem
        rcases hmem with hmem | hmem
        · simp only [startedBufs, List.filterMap] at hmem
          right
          simp only [List.mem_singleton] at hmem
          subst hmem
          simp [arrivals]
        · rw [stopPlaybackInternal_queue] at hmem
          exact Or.inl hmem
      · simp only [playerStep, playAudio, hp, if_false, Bool.false_eq_true,
          playBuffer, hb, if_true] at hmem
        rcases hmem with hmem | hmem
        · simp [startedBufs] at hmem
        · exact Or.inl hmem
  | naturalEnd =>
    cases hc : s.current with
    | none =>
      simp only [playerStep, hc] at hmem
      rcases hmem with hmem | hmem
      · simp [startedBufs] at hmem
      · exact Or.inl hmem
    | some id =>
      cases hq : s.audioQueue with
      | nil =>
        simp only [playerStep, hc, onAudioEnded, hq] at hmem
        rcases hmem with hmem | hmem
        · simp [startedBufs] at hmem
        · simp at hmem
      | cons a rest =>
        by_cases hb : ok a
        · simp only [playerStep, hc, onAudioEnded, hq, playBuffer, hb,
            if_true] at hmem
          rcases hmem with hmem | hmem
          · simp only [startedBufs, List.filterMap, List.mem_singleton] at hmem
            subst hmem
            exact Or.inl (List.mem_cons_self _ _)
          · rw [stopPlaybackInternal_queue] at hmem
            exact Or.inl (List.mem_cons_of_mem _ hmem)
        · simp only [playerStep, hc, onAudioEnded, hq] at hmem
          simp [playBuffer, hb, startedBufs] at hmem
          exact Or.inl (List.mem_cons_of_mem _ hmem)
  | stop =>
    simp only [playerStep, stopPlayback] at hmem
    rcases hmem with hmem | hmem
    · rw [stopPlaybackInternal_started] at hmem
      simp at hmem
    · rw [stopPlaybackInternal_queue] at hmem
      simp at hmem

/-- Run-level provenance: every buffer started during a run, or left in
the queue afterwards, was queued at the start or arrived during the
run. -/
theorem playerRun_provenance (ok : Nat → Bool) :
    ∀ (inputs : List PlayerInput) (s : PlayerState) (b : Nat),
      (b ∈ startedBufs (playerRun ok s inputs).2
        ∨ b ∈ (playerRun ok s inputs).1.audioQueue) →
      b ∈ s.audioQueue ∨ b ∈ arrivals inputs := by
  intro inputs
  induction inputs with
  | nil =>
    intro s b hmem
    rcases hmem with hmem | hmem
    · simp [playerRun, startedBufs] at hmem
    · exact Or.inl hmem
  | cons i rest ih =>
    intro s b hmem
    have harr : arrivals (i :: rest) = arrivals [i] ++ arrivals rest := by
      cases i <;> simp [arrivals]
    rcases hmem with hmem | hmem
    · simp only [playerRun, startedBufs, List.filterMap_append,
        List.mem_append] at hmem
      rcases hmem with hmem | hmem
      · have := playerStep_provenance ok s i b (Or.inl hmem)
        rcases this with h | h
        · exact Or.inl h
        · right; rw [harr]; exact List.mem_append_left _ h
      · have := ih (playerStep ok s i).1 b (Or.inl hmem)
        rcases this with h | h
        · have := playerStep_provenance ok s i b (Or.inr h)
          rcases this with h2 | h2
          · exact Or.inl h2
          · right; rw [harr]; exact List.mem_append_left _ h2
        · right; rw [harr]; exact List.mem_append_right _ h
    · simp only [playerRun] at hmem
      have := ih (playerStep ok s i).1 b (Or.inr hmem)
      rcases this with h | h
      · have := playerStep_provenance ok s i b (Or.inr h)
        rcases this with h2 | h2
        · exact Or.inl h2
        · right; rw [harr]; exact List.mem_append_left _ h2
      · right; rw [harr]; exact List.mem_append_right _ h

/-- `stopPlayback` on a well-formed state: queue emptied, node stopped,
flag reset. -/
theorem stopPlayback_state (s : PlayerState) (h : liveOk s) :
    (stopPlayback s).1.audioQueue = []
    ∧ (stopPlayback s).1.live = []
    ∧ (stopPlayback s).1.current = none
    ∧ (stopPlayback s).1.isPlaying = false := by
  have h2 : liveOk { s with audioQueue := ([] : List Nat) } := h
  obtain ⟨h1, hl, hq, hp, _⟩ := stopPlaybackInternal_state true _ h2
  exact ⟨hq, hl, h1, hp⟩

/-- One stimulus other than stop, when every buffer decodes: the started
buffers followed by the remaining queue extend the previous queue by the
new arrivals, and an idle service has an empty queue. -/
theorem playerStep_fifo (s : PlayerState) (i : PlayerInput)
    (hi : i ≠ PlayerInput.stop)
    (hinv : s.isPlaying = false → s.audioQueue = []) :
    startedBufs (playerStep (fun _ => true) s i).2
        ++ (playerStep (fun _ => true) s i).1.audioQueue
      = s.audioQueue ++ arrivals [i]
    ∧ ((playerStep (fun _ => true) s i).1.isPlaying = false →
        (playerStep (fun _ => true) s i).1.audioQueue = []) := by
  cases i with
  | arrive a =>
    by_cases hp : s.isPlaying
    · simp [playerStep, playAudio, hp, startedBufs, arrivals]
    · have hq : s.audioQueue = [] := hinv (by simpa using hp)
      simp [playerStep, playAudio, hp, playBuffer, startedBufs, arrivals,
        stopPlaybackInternal_queue, hq]
  | naturalEnd =>
    cases hc : s.current with
    | none =>
      simp only [playerStep, hc]
      exact ⟨by simp [startedBufs, arrivals], hinv⟩
    | some id =>
      cases hq : s.audioQueue with
      | nil =>
        simp [playerStep, hc, onAudioEnded, hq, startedBufs, arrivals]
      | cons a rest =>
        simp [playerStep, hc, onAudioEnded, hq, playBuffer, startedBufs,
          arrivals, stopPlaybackInternal_queue]
  | stop => exact absurd rfl hi

/-- Run-level FIFO accounting when every buffer decodes and no stop
occurs. -/
theorem playerRun_fifo :
    ∀ (inputs : List PlayerInput) (s : PlayerState),
      PlayerInput.stop ∉ inputs →
      (s.isPlaying = false → s.audioQueue = []) →
      startedBufs (playerRun (fun _ => true) s inputs).2
          ++ (playerRun (fun _ => true) s inputs).1.audioQueue
        = s.audioQueue ++ arrivals inputs
      ∧ ((playerRun (fun _ => true) s inputs).1.isPlaying = false →
          (playerRun (fun _ => true) s inputs).1.audioQueue = []) := by
  intro inputs
  induction inputs with
  | nil =>
    intro s _ hinv
    exact ⟨by simp [playerRun, startedBufs, arrivals], hinv⟩
  | cons i rest ih =>
    intro s hstop hinv
    have hi : i ≠ PlayerInput.stop := fun h => hstop (h ▸ List.mem_cons_self _ _)
    have hrest : PlayerInput.stop ∉ rest := fun h => hstop (List.mem_cons_of_mem _ h)
    obtain ⟨hstep, hstepinv⟩ := playerStep_fifo s i hi hinv
    obtain ⟨hrun, hruninv⟩ := ih (playerStep (fun _ => true) s i).1 hrest hstepinv
    refine ⟨?_, hruninv⟩
    have harr : arrivals (i :: rest) = arrivals [i] ++ arrivals rest := by
      cases i <;> simp [arrivals]
    simp only [playerRun, startedBufs, List.filterMap_append] at *
    rw [List.append_assoc, hrun, ← List.append_assoc, hstep, harr,
      List.append_assoc]

/-- **C1.** From the moment `stopPlayback()` is invoked, no audio chunk
of the cancelled reply reaches playback: the queue is empty, no source
node is left playing, the playing flag is reset, and any buffer whose
playback starts later arrived at `playAudio` after the cancellation
point. -/
theorem stopPlayback_cancels_pending_audio (ok : Nat → Bool)
    (pre post : List PlayerInput) :
    (playerRun ok initPlayer (pre ++ [PlayerInput.stop])).1.audioQueue = []
    ∧ (playerRun ok initPlayer (pre ++ [PlayerInput.stop])).1.live = []
    ∧ (playerRun ok initPlayer (pre ++ [PlayerInput.stop])).1.isPlaying = false
    ∧ ∀ b, b ∈ startedBufs
          (playerRun ok (playerRun ok initPlayer (pre ++ [PlayerInput.stop])).1
            post).2 →
        b ∈ arrivals post := by
  have hsplit := playerRun_append ok pre [PlayerInput.stop] initPlayer
  have hlive : liveOk (playerRun ok initPlayer pre).1 :=
    playerRun_liveOk ok pre initPlayer liveOk_init
  have hstop := stopPlayback_state (playerRun ok initPlayer pre).1 hlive
  have hs1 : (playerRun ok initPlayer (pre ++ [PlayerInput.stop])).1
      = (stopPlayback (playerRun ok initPlayer pre).1).1 := by
    rw [hsplit]; simp [playerRun, playerStep]
  refine ⟨?_, ?_, ?_, ?_⟩
  · rw [hs1]; exact hstop.1
  · rw [hs1]; exact hstop.2.1
  · rw [hs1]; exact hstop.2.2.2
  · intro b hb
    have := playerRun_provenance ok post _ b (Or.inl hb)
    rcases this with h | h
    · rw [hs1, hstop.1] at h
      simp at h
    · exact h

/-- Witness for C1: a concrete run, two buffers queued then stopped, a
third arriving after the stop; the third is the only one that may start
and it indeed arrived after the cancellation point. -/
theorem stopPlayback_cancels_pending_audio_witness :
    (3 : Nat) ∈ arrivals [PlayerInput.arrive 3, PlayerInput.naturalEnd]
    ∧ (playerRun (fun _ => true) initPlayer
        ([PlayerInput.arrive 1, PlayerInput.arrive 2]
          ++ [PlayerInput.stop])).1.audioQueue = [] := by
  have h := stopPlayback_cancels_pending_audio (fun _ => true)
    [PlayerInput.arrive 1, PlayerInput.arrive 2]
    [PlayerInput.arrive 3, PlayerInput.naturalEnd]
  exact ⟨h.2.2.2 3 (by decide), h.1⟩

/-- **C3 (amended).** Provided every queued buffer decodes successfully,
playback is strictly FIFO: over any stimulus sequence without a stop,
the buffers whose playback started, in start order, followed by the
buffers still queued, are exactly the arrivals in arrival order (so the
played buffers form a prefix of the arrival order). -/
theorem playback_fifo (inputs : List PlayerInput)
    (h : PlayerInput.stop ∉ inputs) :
    startedBufs (playerRun (fun _ => true) initPlayer inputs).2
        ++ (playerRun (fun _ => true) initPlayer inputs).1.audioQueue
      = arrivals inputs := by
  have hrun := playerRun_fifo inputs initPlayer h (fun _ => rfl)
  simpa [initPlayer] using hrun.1

/-- Witness for C3: two arrivals, one natural end, no stop; both buffers
are played in arrival order. -/
theorem playback_fifo_witness :
    startedBufs (playerRun (fun _ => true) initPlayer
        [PlayerInput.arrive 5, PlayerInput.arrive 6, PlayerInput.naturalEnd]).2
      ++ (playerRun (fun _ => true) initPlayer
        [PlayerInput.arrive 5, PlayerInput.arrive 6, PlayerInput.naturalEnd]).1.audioQueue
    = arrivals [PlayerInput.arrive 5, PlayerInput.arrive 6, PlayerInput.naturalEnd] :=
  playback_fifo _ (by decide)

/-- Counterexample to C3 as stated: when one buffer fails to decode
(buffer 2 here), the service starts a later arrival (4) while an earlier
one (3) still waits in the queue, and plays 3 after 4 — the play order
[1, 4, 3] is not even an order-preserving subsequence of the arrival
order [1, 2, 3, 4], although no stop intervened. -/
theorem playback_fifo_counterexample :
    PlayerInput.stop ∉ ([PlayerInput.arrive 1, PlayerInput.arrive 2,
        PlayerInput.arrive 3, PlayerInput.naturalEnd, PlayerInput.arrive 4,
        PlayerInput.naturalEnd, PlayerInput.naturalEnd] : List PlayerInput)
    ∧ arrivals [PlayerInput.arrive 1, PlayerInput.arrive 2,
        PlayerInput.arrive 3, PlayerInput.naturalEnd, PlayerInput.arrive 4,
        PlayerInput.naturalEnd, PlayerInput.naturalEnd] = [1, 2, 3, 4]
    ∧ startedBufs (playerRun (fun b => b != 2) initPlayer
        [PlayerInput.arrive 1, PlayerInput.arrive 2, PlayerInput.arrive 3,
         PlayerInput.naturalEnd, PlayerInput.arrive 4, PlayerInput.naturalEnd,
         PlayerInput.naturalEnd]).2 = [1, 4, 3]
    ∧ ¬ List.Sublist (startedBufs (playerRun (fun b => b != 2) initPlayer
        [PlayerInput.arrive 1, PlayerInput.arrive 2, PlayerInput.arrive 3,
         PlayerInput.naturalEnd, PlayerInput.arrive 4, PlayerInput.naturalEnd,
         PlayerInput.naturalEnd]).2)
        (arrivals [PlayerInput.arrive 1, PlayerInput.arrive 2,
         PlayerInput.arrive 3, PlayerInput.naturalEnd, PlayerInput.arrive 4,
         PlayerInput.naturalEnd, PlayerInput.naturalEnd]) := by
  decide

/-- **C4.** In every reachable state of the playback service at most one
source node is playing. -/
theorem at_most_one_source_playing (ok : Nat → Bool)
    (inputs : List PlayerInput) :
    (playerRun ok initPlayer inputs).1.live.length ≤ 1 := by
  have h := playerRun_liveOk ok inputs initPlayer liveOk_init
  unfold liveOk at h
  rw [h]
  cases (playerRun ok initPlayer inputs).1.current <;> simp

/-- **C9.** When decoding or starting a buffer fails, the service resets
its playing flag and dispatches exactly the `audio-playback-ended`
notification that a natural completion dispatches — no error event is
surfaced, the trace of a failed `playBuffer` equals the trace of a
natural end with an empty queue. -/
theorem decode_error_ends_like_natural_completion (ok : Nat → Bool)
    (b : Nat) (s t : PlayerState) (hb : ok b = false)
    (ht : t.audioQueue = []) :
    (playBuffer ok b s).1.isPlaying = false
    ∧ (playBuffer ok b s).2 = [PlayerEv.playbackEnded]
    ∧ (playBuffer ok b s).1.audioQueue = s.audioQueue
    ∧ (onAudioEnded ok t).2 = [PlayerEv.playbackEnded]
    ∧ (onAudioEnded ok t).1.isPlaying = false
    ∧ (playBuffer ok b s).2 = (onAudioEnded ok t).2 := by
  have hb2 : ¬ (ok b = true) := by rw [hb]; simp
  refine ⟨?_, ?_, ?_, ?_, ?_, ?_⟩ <;>
    simp [playBuffer, hb2, onAudioEnded, ht]

/-- Witness for C9: a concrete decode failure and a concrete natural
completion produce the same single ended notification. -/
theorem decode_error_witness :
    (playBuffer (fun _ => false) 0 initPlayer).2 = [PlayerEv.playbackEnded]
    ∧ (playBuffer (fun _ => false) 0 initPlayer).1.isPlaying = false
    ∧ (onAudioEnded (fun _ => false) initPlayer).2 = [PlayerEv.playbackEnded] := by
  have h := decode_error_ends_like_natural_completion (fun _ => false) 0
    initPlayer initPlayer rfl rfl
  exact ⟨h.2.1, h.1, h.2.2.2.1⟩

/-- **C2.** Concatenating the frames the worklet emits, in emission
order, followed by the residual buffer, yields exactly the concatenation
of the input sample blocks — no sample lost, duplicated or reordered —
and the residual buffer always holds strictly fewer than 320 samples. -/
theorem capture_stream_lossless {α : Type} (blocks : List (List α)) :
    (processStream [] blocks).1.flatten ++ (processStream [] blocks).2
      = blocks.flatten
    ∧ (processStream [] blocks).2.length < frameSize := by
  refine ⟨?_, processStream_residual blocks [] (by simp [frameSize])⟩
  simpa using processStream_flatten blocks []

/-- **C5 (amended).** Every frame the worklet emits has exactly
`frameSize = 320` samples, i.e. 20 ms at 16 kHz mono; a frame is emitted
only once at least 320 samples have accumulated (a shorter buffer emits
nothing).  However the posted frame is a `Float32Array` of 4-byte
samples — 1280 bytes per frame, not 640: the 16-bit little-endian
encoding of the spec's canonical shape is produced downstream, not by
the worklet. -/
theorem capture_frames_canonical {α : Type} (blocks : List (List α))
    (buf : List α) :
    (∀ f ∈ (processStream ([] : List α) blocks).1,
        f.length = frameSize ∧ frameByteLength f = 1280)
    ∧ (buf.length < frameSize → drainFrames buf = ([], buf))
    ∧ frameSize * 1000 / sampleRate = 20 := by
  refine ⟨?_, drainFrames_short buf, by decide⟩
  intro f hf
  have hl := processStream_frames blocks [] f hf
  refine ⟨hl, ?_⟩
  rw [frameByteLength, hl]
  decide

set_option maxRecDepth 4000 in
/-- Witness for C5: a single 320-sample block yields one emitted frame
of 320 samples, and a 1-sample buffer emits nothing. -/
theorem capture_frames_canonical_witness :
    List.replicate 320 (0 : Int) ∈
        (processStream ([] : List Int) [List.replicate 320 0]).1
    ∧ (List.replicate 320 (0 : Int)).length = frameSize
    ∧ ([(0 : Int)].length < frameSize)
    ∧ drainFrames [(0 : Int)] = ([], [(0 : Int)]) := by
  have hmem : List.replicate 320 (0 : Int) ∈
      (processStream ([] : List Int) [List.replicate 320 0]).1 := by decide
  have h := capture_frames_canonical (α := Int) [List.replicate 320 0] [(0 : Int)]
  exact ⟨hmem, (h.1 _ hmem).1, by decide, h.2.1 (by decide)⟩

set_option maxRecDepth 4000 in
/-- Counterexample to C5 as stated: the frame emitted for a 320-sample
input occupies 4 × 320 = 1280 bytes as posted (a `Float32Array`), not
the 640 bytes of the claimed 16-bit encoding. -/
theorem capture_frames_bytes_counterexample :
    (drainFrames (List.replicate 320 (0 : Int))).1
        = [List.replicate 320 (0 : Int)]
    ∧ frameByteLength (List.replicate 320 (0 : Int)) = 1280
    ∧ frameByteLength (List.replicate 320 (0 : Int)) ≠ 640 := by
  decide

theorem updateSiriWaveMode_nonexported (st : String) (m : SiriMode)
    (h : isExportedPhase st = false) : updateSiriWaveMode st m = m := by
  unfold isExportedPhase at h
  simp only [Bool.or_eq_false_iff, beq_eq_false_iff_ne, ne_eq] at h
  obtain ⟨⟨⟨h1, h2⟩, h3⟩, h4⟩ := h
  simp [updateSiriWaveMode, h1, h2, h3, h4]

/-- **C6.** The exported display mode is derived exclusively from the
phases Initial, Speaking, Waiting and Listening: over any sequence of
phase-change notifications the resulting mode equals the mode computed
from the exported phases alone, and a notification carrying
`TransitionBuffer` leaves the mode unchanged — no external observer ever
sees the `TransitionBuffer` phase. -/
theorem transitionBuffer_never_exported (states : List String) (m : SiriMode) :
    List.foldl (fun acc st => updateSiriWaveMode st acc) m states
      = List.foldl (fun acc st => updateSiriWaveMode st acc) m
          (states.filter isExportedPhase)
    ∧ updateSiriWaveMode "TransitionBuffer" m = m := by
  constructor
  · induction states generalizing m with
    | nil => rfl
    | cons st rest ih =>
      cases h : isExportedPhase st with
      | true =>
        have hf : List.filter isExportedPhase (st :: rest)
            = st :: List.filter isExportedPhase rest := by
          simp [List.filter_cons, h]
        rw [hf, List.foldl_cons, List.foldl_cons]
        exact ih _
      | false =>
        have hf : List.filter isExportedPhase (st :: rest)
            = List.filter isExportedPhase rest := by
          simp [List.filter_cons, h]
        rw [hf, List.foldl_cons, updateSiriWaveMode_nonexported st m h]
        exact ih m
  · exact updateSiriWaveMode_nonexported _ m (by decide)

/-- **C10.** `releaseAudioControl(c)` returns `true` and clears the
holder (notifying any pending requester) exactly when `c` is the current
holder; otherwise it returns `false` and leaves both the holder and the
pending request unchanged. -/
theorem releaseAudioControl_holder_only (c : String) (s : CaptureState) :
    ((releaseAudioControl c s).1 = true ↔ s.currentComponent = some c)
    ∧ (s.currentComponent = some c →
        (releaseAudioControl c s).2.1.currentComponent = none
        ∧ (releaseAudioControl c s).2.1.pendingComponentRequest = none
        ∧ (releaseAudioControl c s).2.2 = s.pendingComponentRequest.toList)
    ∧ (s.currentComponent ≠ some c →
        (releaseAudioControl c s).2.1 = s
        ∧ (releaseAudioControl c s).2.2 = []) := by
  by_cases h : s.currentComponent = some c
  · cases hp : s.pendingComponentRequest <;>
      simp [releaseAudioControl, h, hp]
  · simp [releaseAudioControl, h]

/-- Witness for C10: the holder "a" releases successfully and the
waiting "b" is notified; the non-holder "a" fails against holder "c"
with the state untouched. -/
theorem releaseAudioControl_holder_only_witness :
    (releaseAudioControl "a" ⟨some "a", some "b"⟩).1 = true
    ∧ (releaseAudioControl "a" ⟨some "a", some "b"⟩).2.1.currentComponent = none
    ∧ (releaseAudioControl "a" ⟨some "c", none⟩).2.1
        = (⟨some "c", none⟩ : CaptureState) := by
  have h1 := releaseAudioControl_holder_only "a" ⟨some "a", some "b"⟩
  have h2 := releaseAudioControl_holder_only "a" ⟨some "c", none⟩
  exact ⟨h1.1.mpr rfl, (h1.2.1 rfl).1, (h2.2.2 (by decide)).1⟩

theorem queueRun_accounting :
    ∀ (ops : List QOp) (q : SentenceQueue),
      (queueRun q ops).2.flatten ++ (queueRun q ops).1.sentences
        = q.sentences ++ pushedOf ops := by
  intro ops
  induction ops with
  | nil => intro q; simp [queueRun, pushedOf]
  | cons o rest ih =>
    intro q
    cases o with
    | push s =>
      have := ih (pushSentence q s)
      simp only [queueRun, pushSentence] at this ⊢
      rw [this]
      simp [pushedOf]
    | consume =>
      simp only [queueRun, consume_all, List.flatten_cons, List.append_assoc]
      rw [ih ⟨[]⟩]
      simp [pushedOf]

/-- **C7.** The sentence queue is consume-once: over any interleaving of
finalizations and `consume_all` calls, the concatenation of everything
delivered to the consumer, followed by what still waits in the queue, is
exactly the finalized sentences in order — each sentence delivered
exactly once, never reordered — and immediately after any `consume_all`
the queue is empty and the drained sentences are returned. -/
theorem consume_all_exactly_once (ops : List QOp) :
    (queueRun ⟨[]⟩ ops).2.flatten ++ (queueRun ⟨[]⟩ ops).1.sentences
      = pushedOf ops
    ∧ ∀ (q : SentenceQueue),
        (consume_all q).2.sentences = [] ∧ (consume_all q).1 = q.sentences := by
  refine ⟨?_, fun q => ⟨rfl, rfl⟩⟩
  simpa using queueRun_accounting ops ⟨[]⟩

/-- **C8.** `PlaybackStarted` is idempotent: while the machine is
already Listening the event leaves the whole state unchanged (the
Listening self-loop on `AudioPlaybackStart`), and in any state applying
the event twice equals applying it once. -/
theorem playbackStarted_idempotent (s : TMState) :
    turnStep (turnStep s TurnEvent.AudioPlaybackStart)
        TurnEvent.AudioPlaybackStart
      = turnStep s TurnEvent.AudioPlaybackStart
    ∧ (s.phase = TurnPhase.Listening →
        turnStep s TurnEvent.AudioPlaybackStart = s) := by
  obtain ⟨p, n⟩ := s
  cases p <;> simp [turnStep]

/-- Witness for C8: a concrete Listening state is unchanged by a
repeated `PlaybackStarted`. -/
theorem playbackStarted_idempotent_witness :
    turnStep ⟨TurnPhase.Listening, 7⟩ TurnEvent.AudioPlaybackStart
      = ⟨TurnPhase.Listening, 7⟩ :=
  (playbackStarted_idempotent ⟨TurnPhase.Listening, 7⟩).2 rfl

end Lumina

